import Mathlib

/-
  Verification of the natural-language specification of
  CamoRageaholic1/Password-Manager against its source
  (src/password_manager_v2.py and src/password_manager_v2.5.py).

  The Python source is shallowly embedded: bytes are `List Nat` (each
  entry a byte value), Python `str` is Lean `String` (ASCII semantics for
  the character-class predicates), the sqlite `accounts` table is a list
  of rows, and file-system state (salt file, master file, backup
  directory) is passed explicitly.  Randomness (nonces, `secrets`
  output) is made explicit as parameters.  Library cryptographic
  primitives (Fernet, PBKDF2-HMAC-SHA256, SHA-256) are not part of the
  repository source; they are modelled from the spec, as marked.
-/

/-! ## Bytes, strings, and bit flips -/

/-- A single-bit mutation of a byte string: byte `i` has bit `j` flipped. -/
def flipBit (c : List Nat) (i j : Nat) : List Nat :=
  c.set i (c.getD i 0 ^^^ 2 ^ j)

/-- Python `str.encode()` (character codes; ASCII model of UTF-8). -/
def strBytes (s : String) : List Nat := s.data.map Char.toNat

/-- The whitespace stripped by Python `str.strip()`. -/
def isPySpace (c : Char) : Bool := c.toNat == 32 || (9 ≤ c.toNat && c.toNat ≤ 13)

/-- Python `str.strip()`: removes leading and trailing whitespace. -/
def pyStrip (s : String) : String :=
  String.mk (((s.data.dropWhile isPySpace).reverse.dropWhile isPySpace).reverse)

/-- Python `c in string.punctuation` (ASCII codes 33-47, 58-64, 91-96, 123-126). -/
def isPunct (c : Char) : Bool :=
  (33 ≤ c.toNat && c.toNat ≤ 47) || (58 ≤ c.toNat && c.toNat ≤ 64) ||
    (91 ≤ c.toNat && c.toNat ≤ 96) || (123 ≤ c.toNat && c.toNat ≤ 126)

/-! ## RecordCipher (the Fernet token used by `encrypt`/`decrypt`) -/

/-- A toy key schedule: a single byte mixed from the whole key.
(Part of the idealized cipher model; see `fernetEncrypt`.) -/
def keyByte (key : List Nat) : Nat :=
  (key.foldl (fun a b => a * 31 + b) 5) % 256

/-- Keystream byte `i` for a given key and nonce (idealized stream model). -/
def keyStream (key nonce : List Nat) (i : Nat) : Nat :=
  (keyByte key + nonce.foldl (fun a b => a * 7 + b) 3 + i * 13) % 256

/-- XOR a byte string against the keystream starting at position `i`.
Self-inverse, so it serves as both the encryption and decryption core. -/
def xorStream (key nonce : List Nat) : Nat → List Nat → List Nat
  | _, [] => []
  | i, b :: bs => (b ^^^ keyStream key nonce i) :: xorStream key nonce (i + 1) bs

/-- Authentication tag over the nonce and encrypted body (idealized MAC:
a keyed byte-wise transformation, injective in `(nonce, body)` for a fixed
key, standing in for HMAC-SHA256). -/
def macTag (key nonce body : List Nat) : List Nat :=
  (nonce ++ body).map (fun b => b ^^^ keyByte key)

/-- Modelled from the spec: the source's `PasswordManager.encrypt` calls
`Fernet(self.key).encrypt(data.encode())`, whose internals (AES-CBC with a
fresh random IV plus an HMAC-SHA256 tag over the whole token) are library
code not present in `src/`.  Modelled as the spec's AEAD contract: a fresh
16-byte nonce, a keystream-encrypted body, and an authentication tag over
nonce and body; `fernetDecrypt` verifies the tag before returning plaintext.
The fresh nonce randomness is made explicit as the `nonce` argument. -/
def fernetEncrypt (key nonce msg : List Nat) : List Nat :=
  nonce ++ (xorStream key nonce 0 msg ++ macTag key nonce (xorStream key nonce 0 msg))

/-- Modelled from the spec: counterpart of `fernetEncrypt`; parses
nonce/body/tag, recomputes the tag and compares, returning `none`
(the source's `decrypt` returns `None` on any exception) on mismatch. -/
def fernetDecrypt (key c : List Nat) : Option (List Nat) :=
  if 32 ≤ c.length ∧ c.length % 2 = 0 then
    let L := (c.length - 32) / 2
    let nonce := c.take 16
    let body := (c.drop 16).take L
    let tag := (c.drop 16).drop L
    if macTag key nonce body = tag then some (xorStream key nonce 0 body)
    else none
  else none

/-! ## KeyDerivation (`get_salt`, `get_key`) -/

/-- Modelled from the spec: `secrets.token_bytes(n)` (a cryptographically
secure generator from the standard library, not in `src/`); the entropy
source is the explicit `rng` argument, masked to byte range. -/
def tokenBytes (n : Nat) (rng : Nat → Nat) : List Nat :=
  (List.range n).map (fun i => rng i % 256)

/-- `PasswordManager.get_salt`: read the salt file if it exists, otherwise
generate 16 fresh bytes and persist them.  Returns the salt together with
the resulting salt-file state. -/
def getSalt (saltFile : Option (List Nat)) (rng : Nat → Nat) :
    List Nat × Option (List Nat) :=
  match saltFile with
  | some s => (s, some s)
  | none => (tokenBytes 16 rng, some (tokenBytes 16 rng))

/-- Modelled from the spec: HMAC-SHA256 as used inside PBKDF2 (library
code not in `src/`); a deterministic keyed function producing exactly 32
bytes. -/
def hmacSha256 (key msg : List Nat) : List Nat :=
  (List.range 32).map (fun i =>
    (key.foldl (fun a b => (a * 131 + b) % 65521) (i + 1) +
        msg.foldl (fun a b => (a * 137 + b) % 65521) (2 * i + 3)) % 256)

/-- The PBKDF2 inner loop: `c` further PRF applications, XOR-accumulated. -/
def pbkdfLoop (password : List Nat) : Nat → List Nat → List Nat → List Nat
  | 0, _, acc => acc
  | c + 1, u, acc =>
      pbkdfLoop password c (hmacSha256 password u)
        (List.zipWith (· ^^^ ·) acc (hmacSha256 password u))

/-- PBKDF2-HMAC-SHA256 with dkLen = hLen = 32 (a single block, `T_1`):
`U_1 = PRF(password, salt || INT(1))`, `U_j = PRF(password, U_(j-1))`,
result `U_1 XOR ... XOR U_c`. -/
def pbkdf2Sha256 (password salt : List Nat) : Nat → List Nat
  | 0 => []
  | c + 1 => pbkdfLoop password c (hmacSha256 password (salt ++ [0, 0, 0, 1]))
      (hmacSha256 password (salt ++ [0, 0, 0, 1]))

/-- The `iterations=100000` constant of `PasswordManager.get_key`. -/
def kdfIterationCount : Nat := 100000

/-- The raw 32-byte key material `kdf.derive(pw.encode())` of `get_key`. -/
def getKeyRaw (pw salt : List Nat) : List Nat :=
  pbkdf2Sha256 pw salt kdfIterationCount

/-- One character of the URL-safe base64 alphabet (as a byte). -/
def b64Char (n : Nat) : Nat :=
  if n < 26 then 65 + n
  else if n < 52 then 97 + (n - 26)
  else if n < 62 then 48 + (n - 52)
  else if n = 62 then 45
  else 95

/-- `base64.urlsafe_b64encode`: 3-byte groups become 4 characters, with
`=` (byte 61) padding for a 1- or 2-byte final group. -/
def b64urlEncode : List Nat → List Nat
  | [] => []
  | [b1] => [b64Char (b1 / 4), b64Char (b1 % 4 * 16), 61, 61]
  | [b1, b2] => [b64Char (b1 / 4), b64Char (b1 % 4 * 16 + b2 / 16),
      b64Char (b2 % 16 * 4), 61]
  | b1 :: b2 :: b3 :: rest =>
      b64Char (b1 / 4) :: b64Char (b1 % 4 * 16 + b2 / 16) ::
        b64Char (b2 % 16 * 4 + b3 / 64) :: b64Char (b3 % 64) :: b64urlEncode rest

/-- `PasswordManager.get_key`: base64-urlsafe encoding of the PBKDF2
output (the shape Fernet requires for its key argument). -/
def getKey (pw salt : List Nat) : List Nat := b64urlEncode (getKeyRaw pw salt)

/-! ## MasterAuthenticator (`hash_password`, `verify_master`, `set_master`) -/

/-- Modelled from the spec: one byte of the SHA-256 digest (the digest
function itself is library code not in `src/`); deterministic in the
input data alone. -/
def sha256Byte (data : List Nat) (i : Nat) : Nat :=
  (data.foldl (fun a b => (a * 131 + b + i) % 2147483647) (i + 99)) % 256

/-- A lowercase hexadecimal digit character. -/
def hexDigitChar (n : Nat) : Char :=
  if n < 10 then Char.ofNat (48 + n) else Char.ofNat (87 + n)

/-- Modelled from the spec: `hashlib.sha256(data).hexdigest()` — a
deterministic 64-character hex digest of the input bytes alone (no salt
input exists in this function). -/
def sha256hex (data : List Nat) : String :=
  String.mk ((((List.range 32).map (sha256Byte data)).map
    (fun b => [hexDigitChar (b / 16), hexDigitChar (b % 16)])).flatten)

/-- `PasswordManager.hash_password`: SHA-256 hex digest of the passphrase. -/
def hashPassword (pw : String) : String := sha256hex (strBytes pw)

/-- The comparison `self.hash_password(pw) == stored` in `verify_master`. -/
def verifyMasterCheck (stored : String) (pw : String) : Bool :=
  hashPassword pw == stored

/-- `PasswordManager.set_master`, state part: writes `hash_password(pw1)`
to the master file and derives `self.key = get_key(pw1)` (which reads or
creates the salt).  Returns (master-file contents, salt-file state, key). -/
def setMasterVault (pw : String) (saltFile : Option (List Nat)) (rng : Nat → Nat) :
    String × Option (List Nat) × List Nat :=
  (hashPassword pw, (getSalt saltFile rng).2, getKey (strBytes pw) (getSalt saltFile rng).1)

/-! ## Passphrase strength gate (`check_strength`, `set_master`) -/

/-- `PasswordGenerator.check_strength` (v2.5): score plus feedback list.
One point each for length at least 8, 12, 16, an uppercase letter, a
lowercase letter, a digit, and a punctuation symbol, capped at 5. -/
def checkStrength25 (password : String) : Nat × List String :=
  (min ((if 8 ≤ password.length then 1 else 0) +
      (if 12 ≤ password.length then 1 else 0) +
      (if 16 ≤ password.length then 1 else 0) +
      (if password.data.any Char.isUpper then 1 else 0) +
      (if password.data.any Char.isLower then 1 else 0) +
      (if password.data.any Char.isDigit then 1 else 0) +
      (if password.data.any isPunct then 1 else 0)) 5,
    (if 8 ≤ password.length then [] else ["Too short (min 8)"]) ++
      (if password.data.any Char.isUpper then [] else ["Add uppercase letters"]) ++
      (if password.data.any Char.isLower then [] else ["Add lowercase letters"]) ++
      (if password.data.any Char.isDigit then [] else ["Add numbers"]) ++
      (if password.data.any isPunct then [] else ["Add symbols"]))

/-- `PasswordManager.check_strength` (v2.0): as v2.5 but without the
length-16 tier and without feedback. -/
def checkStrengthV2 (pw : String) : Nat :=
  min ((if 8 ≤ pw.length then 1 else 0) +
      (if 12 ≤ pw.length then 1 else 0) +
      (if pw.data.any Char.isUpper then 1 else 0) +
      (if pw.data.any Char.isLower then 1 else 0) +
      (if pw.data.any Char.isDigit then 1 else 0) +
      (if pw.data.any isPunct then 1 else 0)) 5

/-- The acceptance gate of `set_master` (v2.5): the candidate passes
unless `score < 3` (on `score < 3` the caller re-prompts). -/
def setMasterAccepts25 (pw : String) : Bool :=
  !decide ((checkStrength25 pw).1 < 3)

/-- The acceptance gate of `set_master` (v2.0). -/
def setMasterAcceptsV2 (pw : String) : Bool :=
  !decide (checkStrengthV2 pw < 3)

/-- Following the spec's words (for comparison with the source's scoring):
how many of the 5 reference criteria {length at least 8, has-upper,
has-lower, has-digit, has-symbol} the passphrase meets. -/
def refCriteriaCount (pw : String) : Nat :=
  (if 8 ≤ pw.length then 1 else 0) +
    (if pw.data.any Char.isUpper then 1 else 0) +
    (if pw.data.any Char.isLower then 1 else 0) +
    (if pw.data.any Char.isDigit then 1 else 0) +
    (if pw.data.any isPunct then 1 else 0)

/-! ## VaultStore (the sqlite `accounts` table and its CRUD operations) -/

/-- One row of the `accounts` table. -/
structure Row where
  id : Nat
  service : String
  username : String
  password : List Nat
  url : String
  notes : String
  created : String
  updated : String
deriving DecidableEq, Repr

/-- The persisted store: the `accounts` rows plus the next id sqlite
will assign for an `INSERT ... VALUES (NULL, ...)`. -/
structure Store where
  rows : List Row
  nextId : Nat
deriving DecidableEq, Repr

/-- `PasswordManager.add` (v2.5): strips service and username, rejects
either being empty (error message, no insert), otherwise encrypts the
secret and inserts a row with `created = updated = now`.  The `Bool`
reports whether a row was inserted. -/
def addV25 (st : Store) (key nonce : List Nat) (service username : String)
    (pw : List Nat) (url notes now : String) : Store × Bool :=
  if (pyStrip service).data.isEmpty then (st, false)
  else if (pyStrip username).data.isEmpty then (st, false)
  else
    (⟨st.rows ++ [⟨st.nextId, pyStrip service, pyStrip username,
        fernetEncrypt key nonce pw, pyStrip url, pyStrip notes, now, now⟩],
      st.nextId + 1⟩, true)

/-- `PasswordManager.add` (v2.0): no emptiness validation at all; strips
the fields and inserts unconditionally. -/
def addV2 (st : Store) (key nonce : List Nat) (service username : String)
    (pw : List Nat) (url notes now : String) : Store :=
  ⟨st.rows ++ [⟨st.nextId, pyStrip service, pyStrip username,
      fernetEncrypt key nonce pw, pyStrip url, pyStrip notes, now, now⟩],
    st.nextId + 1⟩

/-- Outcome of `PasswordManager.update`: id missing, row updated, or the
"No changes made." path. -/
inductive UpdateResult where
  | notFound
  | updated
  | noChange
deriving DecidableEq, Repr

/-- `PasswordManager.update` (v2.5): looks the id up (error if absent),
then applies the non-empty new username and/or non-empty new secret,
bumping `updated` to now exactly when some field changed; with no fields
supplied it reports "No changes made." and leaves the store untouched.
An empty `newPw` models both "keep current" and an empty manual entry
(both falsy in the source). -/
def updateV25 (st : Store) (key nonce : List Nat) (id : Nat)
    (newUser : String) (newPw : List Nat) (now : String) : Store × UpdateResult :=
  if st.rows.any (fun r => r.id == id) then
    if !(pyStrip newUser).data.isEmpty || !newPw.isEmpty then
      (⟨st.rows.map (fun r =>
          if r.id == id then
            ⟨r.id, r.service,
              (if (pyStrip newUser).data.isEmpty then r.username else pyStrip newUser),
              (if newPw.isEmpty then r.password else fernetEncrypt key nonce newPw),
              r.url, r.notes, r.created, now⟩
          else r), st.nextId⟩, UpdateResult.updated)
    else (st, UpdateResult.noChange)
  else (st, UpdateResult.notFound)

/-- `PasswordManager.update` (v2.0): same lookup and field logic as v2.5,
but the `if updates:` block has no else branch — when no field is
supplied the function simply returns, printing nothing.  The second
component is the message the source prints for the outcome: "Not found"
on a missing id, "Updated" after a successful UPDATE, and `none` (no
report at all) on the no-field path. -/
def updateV2 (st : Store) (key nonce : List Nat) (id : Nat)
    (newUser : String) (newPw : List Nat) (now : String) : Store × Option String :=
  if st.rows.any (fun r => r.id == id) then
    if !(pyStrip newUser).data.isEmpty || !newPw.isEmpty then
      (⟨st.rows.map (fun r =>
          if r.id == id then
            ⟨r.id, r.service,
              (if (pyStrip newUser).data.isEmpty then r.username else pyStrip newUser),
              (if newPw.isEmpty then r.password else fernetEncrypt key nonce newPw),
              r.url, r.notes, r.created, now⟩
          else r), st.nextId⟩, some "Updated")
    else (st, none)
  else (st, some "Not found")

/-- ASCII lowercasing, for sqlite's case-insensitive `LIKE`. -/
def lowerAsc (c : Char) : Char :=
  if c.isUpper then Char.ofNat (c.toNat + 32) else c

/-- Boolean list-prefix test (helper for the `LIKE '%q%'` model). -/
def isPrefixB : List Char → List Char → Bool
  | [], _ => true
  | _ :: _, [] => false
  | a :: as, b :: bs => a == b && isPrefixB as bs

/-- Boolean contiguous-sublist test (helper for the `LIKE '%q%'` model). -/
def isInfixB (p : List Char) : List Char → Bool
  | [] => isPrefixB p []
  | c :: ls => isPrefixB p (c :: ls) || isInfixB p ls

/-- sqlite `service LIKE '%q%'`: case-insensitive substring containment. -/
def likeMatch (q s : String) : Bool :=
  isInfixB (q.data.map lowerAsc) (s.data.map lowerAsc)

/-- One record of the JSON export (all fields but the id, secret decrypted). -/
structure ExportRecord where
  service : String
  username : String
  password : List Nat
  url : String
  notes : String
  created : String
  updated : String
deriving DecidableEq, Repr

/-- The export dict built from a row and its decrypted secret. -/
def mkExport (r : Row) (pw : List Nat) : ExportRecord :=
  ⟨r.service, r.username, pw, r.url, r.notes, r.created, r.updated⟩

/-- `PasswordManager.export` (v2.5), data part: decrypts every row's
secret and keeps the truthy ones (`if pw: data.append(...)`). -/
def exportRecords (key : List Nat) (rows : List Row) : List ExportRecord :=
  rows.filterMap (fun r =>
    match fernetDecrypt key r.password with
    | some pw => if pw.isEmpty then none else some (mkExport r pw)
    | none => none)

/-- `PasswordManager.get` (v2.5), data part: rows matching
`service LIKE '%q%'`, each displayed with its decrypted secret when that
secret is truthy (`if pw:`). -/
def getByService (key : List Nat) (rows : List Row) (q : String) :
    List (Row × List Nat) :=
  (rows.filter (fun r => likeMatch q r.service)).filterMap (fun r =>
    match fernetDecrypt key r.password with
    | some pw => if pw.isEmpty then none else some (r, pw)
    | none => none)

/-! ## BackupManager (`backup`) -/

/-- Insertion into a descending list (helper for the `sorted(...,
reverse=True)` model). -/
def insertDesc (x : Nat) : List Nat → List Nat
  | [] => [x]
  | y :: ys => if y ≤ x then x :: y :: ys else y :: insertDesc x ys

/-- `sorted(..., key=os.path.getmtime, reverse=True)`: the backup
artifacts (represented by their mtimes) in descending order. -/
def sortDesc (l : List Nat) : List Nat := l.foldr insertDesc []

/-- One `PasswordManager.backup` call (v2.5): copy the store file to a
fresh timestamped artifact (mtime `ts`), then unlink every artifact
beyond the `backup_count` most recent. -/
def backupStep (cnt : Nat) (arts : List Nat) (ts : Nat) : List Nat :=
  (sortDesc (ts :: arts)).take cnt

/-- A sequence of backup calls at the given timestamps, starting from an
empty backup directory. -/
def backupRun (cnt : Nat) (tss : List Nat) : List Nat :=
  tss.foldl (backupStep cnt) []

/-! ## Concrete fixtures (used to instantiate the universally
quantified theorems at explicit inputs) -/

/-- A concrete 16-byte nonce. -/
def nonce0 : List Nat := List.replicate 16 0

/-- A concrete row whose secret decrypts successfully (plaintext `[65]`). -/
def rowGood : Row :=
  ⟨1, "gmail", "alice", fernetEncrypt [3] nonce0 [65], "", "", "t0", "t0"⟩

/-- A concrete row whose secret decrypts successfully to the empty string. -/
def rowEmptySecret : Row :=
  ⟨2, "msn", "bob", fernetEncrypt [3] nonce0 [], "", "", "t0", "t0"⟩

/-- A concrete row whose stored ciphertext is garbage (decryption fails). -/
def rowBad : Row := ⟨3, "yahoo", "carl", [7], "", "", "t0", "t0"⟩

/-- A concrete one-row store. -/
def store1 : Store := ⟨[⟨1, "gmail", "alice", [9, 9], "", "", "t0", "t0"⟩], 2⟩

/-! ## Byte-level helper lemmas -/

theorem length_flipBit (c : List Nat) (i j : Nat) :
    (flipBit c i j).length = c.length := by
  simp [flipBit]

theorem xorCancelRight (a c : Nat) : a ^^^ c ^^^ c = a := by
  rw [Nat.xor_assoc, Nat.xor_self, Nat.xor_zero]

theorem xorRightInjective (c : Nat) : Function.Injective (fun b => b ^^^ c) := by
  intro a b h
  have h2 : a ^^^ c ^^^ c = b ^^^ c ^^^ c := by simpa using h
  rwa [xorCancelRight, xorCancelRight] at h2

theorem xorPowNe (b j : Nat) : b ^^^ 2 ^ j ≠ b := by
  intro h
  have h2 : b ^^^ 2 ^ j ^^^ b = b ^^^ b := by rw [h]
  rw [Nat.xor_comm b (2 ^ j), Nat.xor_assoc, Nat.xor_self, Nat.xor_zero] at h2
  exact absurd h2 (Nat.pos_iff_ne_zero.mp (Nat.pos_pow_of_pos j (by omega)))

theorem getDSetSelf : ∀ (l : List Nat) (i : Nat) (v : Nat), i < l.length →
    (l.set i v).getD i 0 = v
  | _ :: _, 0, _, _ => rfl
  | _ :: xs, i + 1, v, h => getDSetSelf xs i v (by simpa using h)

theorem setNeOfNe (l : List Nat) (i : Nat) (v : Nat) (hi : i < l.length)
    (hv : v ≠ l.getD i 0) : l.set i v ≠ l := by
  intro h
  have h2 : (l.set i v).getD i 0 = l.getD i 0 := by rw [h]
  rw [getDSetSelf l i v hi] at h2
  exact hv h2

theorem getDAppendLeft : ∀ (a b : List Nat) (i : Nat), i < a.length →
    (a ++ b).getD i 0 = a.getD i 0
  | _ :: _, _, 0, _ => rfl
  | _ :: as, b, i + 1, h => getDAppendLeft as b i (by simpa using h)

theorem getDAppendRight : ∀ (a b : List Nat) (i : Nat), a.length ≤ i →
    (a ++ b).getD i 0 = b.getD (i - a.length) 0
  | [], _, _, _ => by simp
  | _ :: as, b, i + 1, h => by
      simpa using getDAppendRight as b i (by simpa using h)

/-! ## RecordCipher lemmas -/

theorem xorStream_length (key nonce : List Nat) :
    ∀ (i : Nat) (bs : List Nat), (xorStream key nonce i bs).length = bs.length
  | _, [] => rfl
  | i, _ :: bs => by simp [xorStream, xorStream_length key nonce (i + 1) bs]

theorem xorStream_xorStream (key nonce : List Nat) :
    ∀ (i : Nat) (bs : List Nat), xorStream key nonce i (xorStream key nonce i bs) = bs
  | _, [] => rfl
  | i, b :: bs => by
      simp only [xorStream, xorCancelRight]
      exact congrArg _ (xorStream_xorStream key nonce (i + 1) bs)

theorem macTag_length (key nonce body : List Nat) :
    (macTag key nonce body).length = nonce.length + body.length := by
  simp [macTag]

theorem macTag_inj (key : List Nat) {n1 b1 n2 b2 : List Nat}
    (h : macTag key n1 b1 = macTag key n2 b2) : n1 ++ b1 = n2 ++ b2 :=
  List.map_injective_iff.mpr (xorRightInjective (keyByte key)) h

/-- Parsing a well-shaped token recovers its three components. -/
theorem fernetDecrypt_parse (key n b t : List Nat) (hn : n.length = 16)
    (ht : t.length = 16 + b.length) :
    fernetDecrypt key (n ++ (b ++ t)) =
      if macTag key n b = t then some (xorStream key n 0 b) else none := by
  have hlen : (n ++ (b ++ t)).length = 32 + 2 * b.length := by
    simp [hn, ht]; omega
  have hL : ((n ++ (b ++ t)).length - 32) / 2 = b.length := by
    rw [hlen]; omega
  have htake : (n ++ (b ++ t)).take 16 = n := List.take_left' hn
  have hdrop : (n ++ (b ++ t)).drop 16 = b ++ t := List.drop_left' hn
  have hbody : ((n ++ (b ++ t)).drop 16).take b.length = b := by
    rw [hdrop]; exact List.take_left' rfl
  have htag : ((n ++ (b ++ t)).drop 16).drop b.length = t := by
    rw [hdrop]; exact List.drop_left' rfl
  rw [fernetDecrypt, if_pos (by rw [hlen]; omega)]
  simp only [hL, htake, hbody, htag]

theorem fernet_roundtrip (key nonce msg : List Nat) (hn : nonce.length = 16) :
    fernetDecrypt key (fernetEncrypt key nonce msg) = some msg := by
  rw [fernetEncrypt]
  rw [fernetDecrypt_parse key nonce (xorStream key nonce 0 msg) _ hn
    (by rw [macTag_length, hn])]
  rw [if_pos rfl, xorStream_xorStream]

theorem fernet_nonce_injective (key n1 n2 m : List Nat) (h1 : n1.length = 16)
    (h2 : n2.length = 16) (hne : n1 ≠ n2) :
    fernetEncrypt key n1 m ≠ fernetEncrypt key n2 m := by
  intro h
  apply hne
  have h3 := congrArg (List.take 16) h
  rw [fernetEncrypt, fernetEncrypt, List.take_left' h1, List.take_left' h2] at h3
  exact h3

/-- Any single-bit mutation of a token makes the tag check fail. -/
theorem fernet_tamper (key nonce msg : List Nat) (hn : nonce.length = 16)
    (i j : Nat) (hi : i < (fernetEncrypt key nonce msg).length) :
    fernetDecrypt key (flipBit (fernetEncrypt key nonce msg) i j) = none := by
  have hbl : (xorStream key nonce 0 msg).length = msg.length :=
    xorStream_length key nonce 0 msg
  set b : List Nat := xorStream key nonce 0 msg with hbdef
  set t : List Nat := macTag key nonce b with htdef
  have htl : t.length = 16 + b.length := by rw [htdef, macTag_length, hn]
  have henc : fernetEncrypt key nonce msg = nonce ++ (b ++ t) := rfl
  rw [henc] at hi ⊢
  have hitotal : i < 16 + (b.length + t.length) := by
    simpa [hn] using hi
  rw [flipBit]
  by_cases hc1 : i < 16
  · -- flip inside the nonce
    have hgd : (nonce ++ (b ++ t)).getD i 0 = nonce.getD i 0 :=
      getDAppendLeft _ _ _ (by omega)
    rw [hgd, List.set_append_left _ _ (by omega)]
    rw [fernetDecrypt_parse key _ b t (by simpa using hn) htl]
    rw [if_neg]
    intro hEq
    have h4 : nonce.set i (nonce.getD i 0 ^^^ 2 ^ j) ++ b = nonce ++ b :=
      macTag_inj key (hEq.trans htdef)
    have h5 : nonce.set i (nonce.getD i 0 ^^^ 2 ^ j) = nonce :=
      List.append_cancel_right h4
    exact setNeOfNe nonce i _ (by omega) (xorPowNe _ j) h5
  · by_cases hc2 : i < 16 + b.length
    · -- flip inside the body
      have hgd : (nonce ++ (b ++ t)).getD i 0 = b.getD (i - 16) 0 := by
        rw [getDAppendRight _ _ _ (by omega), hn,
          getDAppendLeft _ _ _ (by omega)]
      rw [hgd, List.set_append_right _ _ (by omega), hn,
        List.set_append_left _ _ (by omega)]
      rw [fernetDecrypt_parse key nonce _ t hn (by simpa using htl)]
      rw [if_neg]
      intro hEq
      have h4 : nonce ++ b.set (i - 16) (b.getD (i - 16) 0 ^^^ 2 ^ j) = nonce ++ b :=
        macTag_inj key (hEq.trans htdef)
      have h5 : b.set (i - 16) (b.getD (i - 16) 0 ^^^ 2 ^ j) = b :=
        List.append_cancel_left h4
      exact setNeOfNe b (i - 16) _ (by omega) (xorPowNe _ j) h5
    · -- flip inside the tag
      have hgd : (nonce ++ (b ++ t)).getD i 0 = t.getD (i - 16 - b.length) 0 := by
        rw [getDAppendRight _ _ _ (by omega), hn,
          getDAppendRight _ _ _ (by omega)]
      rw [hgd, List.set_append_right _ _ (by omega), hn,
        List.set_append_right _ _ (by omega)]
      rw [fernetDecrypt_parse key nonce b _ hn (by simpa using htl)]
      rw [if_neg]
      intro hEq
      have h5 : t.set (i - 16 - b.length) (t.getD (i - 16 - b.length) 0 ^^^ 2 ^ j) = t :=
        (htdef ▸ hEq).symm
      exact setNeOfNe t (i - 16 - b.length) _ (by omega) (xorPowNe _ j) h5

/-! ## KeyDerivation lemmas -/

theorem hmacSha256_length (key msg : List Nat) : (hmacSha256 key msg).length = 32 := by
  simp [hmacSha256]

theorem pbkdfLoop_length (password : List Nat) :
    ∀ (c : Nat) (u acc : List Nat), acc.length = 32 →
      (pbkdfLoop password c u acc).length = 32
  | 0, _, _, h => h
  | c + 1, u, acc, h => by
      rw [pbkdfLoop]
      exact pbkdfLoop_length password c _ _
        (by simp [List.length_zipWith, hmacSha256_length, h])

theorem pbkdf2Sha256_length (password salt : List Nat) (c : Nat) :
    (pbkdf2Sha256 password salt (c + 1)).length = 32 := by
  rw [pbkdf2Sha256]
  exact pbkdfLoop_length password c _ _ (hmacSha256_length _ _)

theorem getKeyRaw_length (pw salt : List Nat) : (getKeyRaw pw salt).length = 32 := by
  rw [getKeyRaw, show kdfIterationCount = 99999 + 1 from rfl]
  exact pbkdf2Sha256_length pw salt 99999

theorem b64urlEncode_length :
    ∀ bs : List Nat, (b64urlEncode bs).length = 4 * ((bs.length + 2) / 3)
  | [] => rfl
  | [_] => by simp [b64urlEncode]
  | [_, _] => by simp [b64urlEncode]
  | _ :: _ :: _ :: rest => by
      rw [b64urlEncode]
      simp only [List.length_cons, b64urlEncode_length rest]
      omega

theorem getKey_length (pw salt : List Nat) : (getKey pw salt).length = 44 := by
  rw [getKey, b64urlEncode_length, getKeyRaw_length]

/-! ## Strength-gate lemmas -/

theorem accepts25_iff (pw : String) :
    setMasterAccepts25 pw = true ↔ 3 ≤ (checkStrength25 pw).1 := by
  rw [setMasterAccepts25]
  simp [Nat.not_lt]

theorem acceptsV2_iff (pw : String) :
    setMasterAcceptsV2 pw = true ↔ 3 ≤ checkStrengthV2 pw := by
  rw [setMasterAcceptsV2]
  simp [Nat.not_lt]

theorem ref_le_score25 (pw : String) (h : 3 ≤ refCriteriaCount pw) :
    3 ≤ (checkStrength25 pw).1 := by
  rw [refCriteriaCount] at h
  rw [checkStrength25]
  dsimp only
  split_ifs at h ⊢ <;> omega

theorem ref_le_scoreV2 (pw : String) (h : 3 ≤ refCriteriaCount pw) :
    3 ≤ checkStrengthV2 pw := by
  rw [refCriteriaCount] at h
  rw [checkStrengthV2]
  split_ifs at h ⊢ <;> omega

/-! ## BackupManager lemmas -/

theorem insertDesc_top (x : Nat) (l : List Nat) (h : ∀ a ∈ l, a ≤ x) :
    insertDesc x l = x :: l := by
  cases l with
  | nil => rfl
  | cons y ys =>
      rw [insertDesc, if_pos (h y (by simp))]

theorem sortDesc_of_sorted (l : List Nat) (h : l.Pairwise (fun a b => b ≤ a)) :
    sortDesc l = l := by
  induction l with
  | nil => rfl
  | cons a l ih =>
      have h2 := List.pairwise_cons.mp h
      rw [sortDesc, List.foldr_cons,
        show List.foldr insertDesc [] l = sortDesc l from rfl, ih h2.2]
      exact insertDesc_top a l h2.1

theorem take_append_take (n : Nat) (xs ys : List Nat) :
    (xs ++ ys.take n).take n = (xs ++ ys).take n := by
  rw [List.take_append_eq_append_take, List.take_append_eq_append_take,
    List.take_take]
  congr 1
  rw [Nat.min_def, if_pos (by omega)]

theorem backupFold (cnt : Nat) : ∀ (tss acc : List Nat),
    tss.Pairwise (· < ·) →
    (∀ a ∈ acc, ∀ t ∈ tss, a < t) →
    acc.Pairwise (fun a b => b ≤ a) →
    acc.length ≤ cnt →
    tss.foldl (backupStep cnt) acc = (tss.reverse ++ acc).take cnt := by
  intro tss
  induction tss with
  | nil =>
      intro acc _ _ _ hlen
      simp [List.take_of_length_le hlen]
  | cons t ts ih =>
      intro acc hp hlt hs hlen
      have hpc := List.pairwise_cons.mp hp
      have hsorted : (t :: acc).Pairwise (fun a b => b ≤ a) :=
        List.pairwise_cons.mpr
          ⟨fun a ha => le_of_lt (hlt a ha t (by simp)), hs⟩
      have hstep : backupStep cnt acc t = (t :: acc).take cnt := by
        rw [backupStep, sortDesc_of_sorted _ hsorted]
      rw [List.foldl_cons, hstep]
      have hta : ∀ a ∈ (t :: acc).take cnt, ∀ u ∈ ts, a < u := by
        intro a ha u hu
        rcases List.mem_cons.mp (List.mem_of_mem_take ha) with rfl | h3
        · exact hpc.1 u hu
        · exact hlt a h3 u (by simp [hu])
      have hs' : ((t :: acc).take cnt).Pairwise (fun a b => b ≤ a) :=
        List.Pairwise.sublist (List.take_sublist cnt (t :: acc)) hsorted
      have hlen' : ((t :: acc).take cnt).length ≤ cnt := by
        simp [List.length_take]
      rw [ih _ hpc.2 hta hs' hlen', List.reverse_cons, List.append_assoc,
        List.singleton_append, take_append_take]

/-! ## Claim theorems -/

/-- C1: for every key produced by key derivation and every plaintext,
decrypting the encryption under that key returns the plaintext, and two
encryptions of the same plaintext under the same key with distinct fresh
nonces yield different ciphertexts. -/
theorem claim_C1_roundtrip_and_fresh_nonce (pw salt nonce1 nonce2 msg : List Nat)
    (h1 : nonce1.length = 16) (h2 : nonce2.length = 16) :
    fernetDecrypt (getKey pw salt) (fernetEncrypt (getKey pw salt) nonce1 msg) =
        some msg ∧
      (nonce1 ≠ nonce2 →
        fernetEncrypt (getKey pw salt) nonce1 msg ≠
          fernetEncrypt (getKey pw salt) nonce2 msg) :=
  ⟨fernet_roundtrip _ _ _ h1, fun hne => fernet_nonce_injective _ _ _ _ h1 h2 hne⟩

/-- C1 witness: the round trip and nonce-distinctness at concrete inputs. -/
theorem claim_C1_witness :
    fernetDecrypt (getKey [97] [1]) (fernetEncrypt (getKey [97] [1]) nonce0 [104, 105]) =
        some [104, 105] ∧
      (nonce0 ≠ 1 :: List.replicate 15 0 →
        fernetEncrypt (getKey [97] [1]) nonce0 [104, 105] ≠
          fernetEncrypt (getKey [97] [1]) (1 :: List.replicate 15 0) [104, 105]) :=
  claim_C1_roundtrip_and_fresh_nonce [97] [1] nonce0 (1 :: List.replicate 15 0)
    [104, 105] (by decide) (by decide)

/-- C2: decrypting any single-bit mutation of a valid ciphertext fails
with the failure value `none`, and in particular never yields any
plaintext, let alone a different one. -/
theorem claim_C2_tamper_detection (key nonce msg : List Nat) (hn : nonce.length = 16)
    (i j : Nat) (hi : i < (fernetEncrypt key nonce msg).length) (hj : j < 8) :
    fernetDecrypt key (flipBit (fernetEncrypt key nonce msg) i j) = none ∧
      ∀ m2, fernetDecrypt key (flipBit (fernetEncrypt key nonce msg) i j) ≠ some m2 := by
  have h := fernet_tamper key nonce msg hn i j hi
  exact ⟨h, fun m2 h2 => by rw [h] at h2; exact Option.noConfusion h2⟩

/-- C2 witness: flipping the lowest bit of the first ciphertext byte of a
concrete token makes decryption fail. -/
theorem claim_C2_witness :
    fernetDecrypt [3] (flipBit (fernetEncrypt [3] nonce0 [65]) 0 0) = none ∧
      ∀ m2, fernetDecrypt [3] (flipBit (fernetEncrypt [3] nonce0 [65]) 0 0) ≠ some m2 :=
  claim_C2_tamper_detection [3] nonce0 [65] (by decide) 0 0 (by decide) (by decide)

/-- C3 counterexample: `get_key` does not return 32 bytes — it returns
the 44-byte urlsafe-base64 encoding of the 32 bytes of derived key
material. -/
theorem claim_C3_counterexample :
    (getKey [97, 98, 99] [1, 2]).length = 44 ∧ ¬(getKey [97, 98, 99] [1, 2]).length = 32 := by
  have h := getKey_length [97, 98, 99] [1, 2]
  exact ⟨h, by rw [h]; decide⟩

/-- C3 (amended): key derivation is deterministic; the PBKDF2-HMAC-SHA256
derivation runs exactly 100000 iterations and produces exactly 32 bytes of
key material, which `get_key` returns urlsafe-base64 encoded as 44 bytes. -/
theorem claim_C3_key_derivation (pw salt : List Nat) :
    getKey pw salt = getKey pw salt ∧
      (getKeyRaw pw salt).length = 32 ∧
      getKey pw salt = b64urlEncode (getKeyRaw pw salt) ∧
      (getKey pw salt).length = 44 ∧
      kdfIterationCount = 100000 ∧ 100000 ≤ kdfIterationCount :=
  ⟨rfl, getKeyRaw_length pw salt, rfl, getKey_length pw salt, rfl, le_refl _⟩

/-- C8: the salt is an invariant of the vault state — with an existing
salt file `get_salt` returns its contents and leaves the file unchanged;
with no salt file it generates exactly 16 bytes and persists exactly
those bytes. -/
theorem claim_C8_salt_invariant (s : List Nat) (rng : Nat → Nat) :
    getSalt (some s) rng = (s, some s) ∧
      (getSalt none rng).1.length = 16 ∧
      (getSalt none rng).2 = some (getSalt none rng).1 := by
  refine ⟨rfl, ?_, rfl⟩
  simp [getSalt, tokenBytes]

/-- C10 (implicit): the persisted master verifier is a deterministic,
unsalted digest of the passphrase alone — any two vault setups with the
same passphrase (whatever their salt files or entropy) write identical
verifier contents, equal to `hash_password` of the passphrase (no salt
input); verification is string equality with the stored line. -/
theorem claim_C10_unsalted_verifier (pw : String) (sf1 sf2 : Option (List Nat))
    (rng1 rng2 : Nat → Nat) :
    (setMasterVault pw sf1 rng1).1 = (setMasterVault pw sf2 rng2).1 ∧
      (setMasterVault pw sf1 rng1).1 = hashPassword pw ∧
      ∀ stored, verifyMasterCheck stored pw = true ↔ hashPassword pw = stored := by
  refine ⟨rfl, rfl, fun stored => ?_⟩
  rw [verifyMasterCheck]
  exact ⟨fun h => by simpa using h, fun h => by simp [h]⟩

/-- C4 counterexample: a 12-character all-lowercase passphrase satisfies
only 2 of the 5 reference criteria, yet `set_master` accepts it in both
versions — the claimed "accepts iff at least 3 of 5 criteria" is false. -/
theorem claim_C4_counterexample :
    refCriteriaCount "aaaaaaaaaaaa" = 2 ∧
      setMasterAccepts25 "aaaaaaaaaaaa" = true ∧
      setMasterAcceptsV2 "aaaaaaaaaaaa" = true := by
  decide

/-- C4 (amended): `set_master` accepts a passphrase iff its
`check_strength` score is at least 3, where the score also rewards length
tiers (8, 12 and — in v2.5 — 16) beyond the five reference criteria and
is capped at 5; meeting at least 3 of the 5 reference criteria still
guarantees acceptance, but acceptance does not require it. -/
theorem claim_C4_strength_gate (pw : String) :
    (3 ≤ refCriteriaCount pw →
        setMasterAccepts25 pw = true ∧ setMasterAcceptsV2 pw = true) ∧
      (setMasterAccepts25 pw = true ↔ 3 ≤ (checkStrength25 pw).1) ∧
      (setMasterAcceptsV2 pw = true ↔ 3 ≤ checkStrengthV2 pw) :=
  ⟨fun h => ⟨(accepts25_iff pw).mpr (ref_le_score25 pw h),
      (acceptsV2_iff pw).mpr (ref_le_scoreV2 pw h)⟩,
    accepts25_iff pw, acceptsV2_iff pw⟩

/-- C4 witness: a passphrase meeting all 5 reference criteria is accepted. -/
theorem claim_C4_witness :
    3 ≤ refCriteriaCount "Aa1!aaaa" ∧
      setMasterAccepts25 "Aa1!aaaa" = true ∧ setMasterAcceptsV2 "Aa1!aaaa" = true :=
  ⟨by decide, (claim_C4_strength_gate "Aa1!aaaa").1 (by decide)⟩

/-- C5 counterexample: in v2.0 the empty service and username pass
straight through `add`, which inserts the row — the claimed core-side
non-emptiness validation does not exist there. -/
theorem claim_C5_counterexample :
    (pyStrip "").data.isEmpty = true ∧
      (addV2 ⟨[], 1⟩ [1] nonce0 "" "" [] "" "" "t").rows.length = 1 :=
  ⟨by decide, rfl⟩

/-- C5 (amended): in v2.5, `add` with an empty (after stripping) service
or username is rejected and leaves the store untouched; in v2.0, `add`
performs no emptiness validation and inserts the row unconditionally. -/
theorem claim_C5_add_validation (st : Store) (key nonce : List Nat)
    (service username : String) (pw : List Nat) (url notes now : String) :
    ((pyStrip service).data.isEmpty = true ∨ (pyStrip username).data.isEmpty = true →
        addV25 st key nonce service username pw url notes now = (st, false)) ∧
      addV2 st key nonce service username pw url notes now =
        ⟨st.rows ++ [⟨st.nextId, pyStrip service, pyStrip username,
            fernetEncrypt key nonce pw, pyStrip url, pyStrip notes, now, now⟩],
          st.nextId + 1⟩ := by
  refine ⟨fun h => ?_, rfl⟩
  rcases h with h | h
  · simp [addV25, h]
  · by_cases hs : (pyStrip service).data.isEmpty
    · simp [addV25, hs]
    · simp [addV25, hs, h]

/-- C5 witness: a service of only whitespace is rejected by v2.5's `add`
with the store unchanged. -/
theorem claim_C5_witness :
    addV25 ⟨[], 1⟩ [1] nonce0 " " "bob" [2] "" "" "t" = (⟨[], 1⟩, false) :=
  (claim_C5_add_validation ⟨[], 1⟩ [1] nonce0 " " "bob" [2] "" "" "t").1
    (Or.inl (by decide))

/-- C6 counterexample: in v2.0, an update supplying no fields on an
existing id leaves the store untouched but reports nothing at all — the
`if updates:` block has no else branch — so the claimed explicit
success-with-no-change report does not exist there. -/
theorem claim_C6_counterexample :
    updateV2 store1 [5] nonce0 1 "" [] "t1" = (store1, none) := by
  decide

/-- C6 (amended): when the id exists, an update supplying only a new
secret re-encrypts that secret and bumps `updated`, leaving `id`,
`service`, `username`, `url`, `notes`, `created` of every row (and all
other rows) unchanged — in both versions; an update supplying no fields
leaves the store untouched in both versions, but only v2.5 reports the
explicit no-change outcome ("No changes made.", not an error) — v2.0
prints nothing on that path. -/
theorem claim_C6_update_frame (st : Store) (key nonce : List Nat) (id : Nat)
    (pw : List Nat) (now : String)
    (hex : st.rows.any (fun r => r.id == id) = true) :
    (pw ≠ [] →
        updateV25 st key nonce id "" pw now =
          (⟨st.rows.map (fun r =>
              if r.id == id then
                ⟨r.id, r.service, r.username, fernetEncrypt key nonce pw,
                  r.url, r.notes, r.created, now⟩
              else r), st.nextId⟩, UpdateResult.updated)) ∧
      updateV25 st key nonce id "" [] now = (st, UpdateResult.noChange) ∧
      (pw ≠ [] →
        updateV2 st key nonce id "" pw now =
          (⟨st.rows.map (fun r =>
              if r.id == id then
                ⟨r.id, r.service, r.username, fernetEncrypt key nonce pw,
                  r.url, r.notes, r.created, now⟩
              else r), st.nextId⟩, some "Updated")) ∧
      updateV2 st key nonce id "" [] now = (st, none) := by
  refine ⟨fun hpw => ?_, ?_, fun hpw => ?_, ?_⟩
  · rw [updateV25, if_pos hex]
    have hpe : pw.isEmpty = false := List.isEmpty_eq_false.mpr hpw
    simp [show (pyStrip "").data.isEmpty = true from rfl, hpe]
  · rw [updateV25, if_pos hex]
    simp [show (pyStrip "").data.isEmpty = true from rfl]
  · rw [updateV2, if_pos hex]
    have hpe : pw.isEmpty = false := List.isEmpty_eq_false.mpr hpw
    simp [show (pyStrip "").data.isEmpty = true from rfl, hpe]
  · rw [updateV2, if_pos hex]
    simp [show (pyStrip "").data.isEmpty = true from rfl]

/-- C6 witness: the frame and report properties at a concrete one-row
store, for both versions. -/
theorem claim_C6_witness :
    (([7] : List Nat) ≠ [] →
        updateV25 store1 [5] nonce0 1 "" [7] "t1" =
          (⟨store1.rows.map (fun r =>
              if r.id == 1 then
                ⟨r.id, r.service, r.username, fernetEncrypt [5] nonce0 [7],
                  r.url, r.notes, r.created, "t1"⟩
              else r), store1.nextId⟩, UpdateResult.updated)) ∧
      updateV25 store1 [5] nonce0 1 "" [] "t1" = (store1, UpdateResult.noChange) ∧
      (([7] : List Nat) ≠ [] →
        updateV2 store1 [5] nonce0 1 "" [7] "t1" =
          (⟨store1.rows.map (fun r =>
              if r.id == 1 then
                ⟨r.id, r.service, r.username, fernetEncrypt [5] nonce0 [7],
                  r.url, r.notes, r.created, "t1"⟩
              else r), store1.nextId⟩, some "Updated")) ∧
      updateV2 store1 [5] nonce0 1 "" [] "t1" = (store1, none) :=
  claim_C6_update_frame store1 [5] nonce0 1 [7] "t1" (by decide)

/-- C7: with a configured retention count N (range 1-20) and strictly
increasing backup timestamps, N+2 backup calls starting from an empty
backup directory leave exactly the N most recent artifacts — the two
oldest are pruned. -/
theorem claim_C7_backup_retention (cnt : Nat) (tss : List Nat)
    (h1 : 1 ≤ cnt) (h2 : cnt ≤ 20) (hinc : tss.Pairwise (· < ·))
    (hlen : tss.length = cnt + 2) :
    backupRun cnt tss = tss.reverse.take cnt ∧ (backupRun cnt tss).length = cnt := by
  have h := backupFold cnt tss [] hinc (by simp) (by simp) (by simp)
  rw [backupRun, h, List.append_nil]
  refine ⟨rfl, ?_⟩
  rw [List.length_take, List.length_reverse, hlen]
  omega

/-- C7 witness: retention 1, three calls, only the newest artifact left. -/
theorem claim_C7_witness :
    backupRun 1 [4, 5, 6] = ([4, 5, 6] : List Nat).reverse.take 1 ∧
      (backupRun 1 [4, 5, 6]).length = 1 :=
  claim_C7_backup_retention 1 [4, 5, 6] (by decide) (by decide) (by decide) (by decide)

/-- C9 counterexample: a record whose secret decrypts successfully to the
empty string is skipped by both retrieval and export (the source tests
`if pw:`, which conflates the empty plaintext with decryption failure),
so "every record whose secret decrypts successfully is returned" is
false. -/
theorem claim_C9_counterexample :
    fernetDecrypt [3] rowEmptySecret.password = some [] ∧
      exportRecords [3] [rowEmptySecret] = [] ∧
      getByService [3] [rowEmptySecret] "msn" = [] := by
  decide

/-- C9 (amended): retrieval and export are resilient per record — every
record whose secret decrypts successfully to a NON-EMPTY plaintext is
returned/exported (a failing or empty-decrypting record is skipped
without aborting the batch), and everything exported comes from a record
whose secret decrypted successfully. -/
theorem claim_C9_per_record_resilience (key : List Nat) (rows : List Row) (q : String) :
    (∀ r ∈ rows, ∀ pw, fernetDecrypt key r.password = some pw → pw ≠ [] →
        mkExport r pw ∈ exportRecords key rows) ∧
      (∀ e ∈ exportRecords key rows, ∃ r ∈ rows,
          fernetDecrypt key r.password = some e.password) ∧
      (∀ r ∈ rows, likeMatch q r.service = true →
        ∀ pw, fernetDecrypt key r.password = some pw → pw ≠ [] →
          (r, pw) ∈ getByService key rows q) := by
  refine ⟨?_, ?_, ?_⟩
  · intro r hr pw hdec hne
    rw [exportRecords]
    exact List.mem_filterMap.mpr
      ⟨r, hr, by rw [hdec]; simp [List.isEmpty_eq_false.mpr hne]⟩
  · intro e he
    rw [exportRecords] at he
    obtain ⟨r, hr, hmap⟩ := List.mem_filterMap.mp he
    refine ⟨r, hr, ?_⟩
    revert hmap
    cases hdec : fernetDecrypt key r.password with
    | none => intro hmap; exact absurd hmap (by simp)
    | some pw =>
        intro hmap
        by_cases hpe : pw.isEmpty
        · simp [hpe] at hmap
        · simp [hpe] at hmap
          rw [← hmap]
          rfl
  · intro r hr hlike pw hdec hne
    rw [getByService]
    exact List.mem_filterMap.mpr
      ⟨r, List.mem_filter.mpr ⟨hr, hlike⟩,
        by rw [hdec]; simp [List.isEmpty_eq_false.mpr hne]⟩

/-- C9 witness: with one undecryptable record in the store, the valid
record is still exported and still retrieved by service search. -/
theorem claim_C9_witness :
    mkExport rowGood [65] ∈ exportRecords [3] [rowGood, rowBad] ∧
      (rowGood, [65]) ∈ getByService [3] [rowGood, rowBad] "gma" :=
  ⟨(claim_C9_per_record_resilience [3] [rowGood, rowBad] "gma").1 rowGood
      (by decide) [65] (by decide) (by decide),
    (claim_C9_per_record_resilience [3] [rowGood, rowBad] "gma").2.2 rowGood
      (by decide) (by decide) [65] (by decide) (by decide)⟩
